import Mathlib

/-!
Verification of the model/environment resource lifecycle and auto-framing
logic of the Gabo3Dview in-browser 3D viewer (src/app.js), as a shallow
embedding over exact rational arithmetic.

The embedding covers:
* the camera framing computation (frameModel, src/app.js lines 408-420),
  with the tangent of the half field-of-view passed in as a parameter
  standing for the value the host runtime returns for Math.tan(fov / 2);
* the centering/rescaling normalization performed on a freshly loaded
  model (setupLoadedModel, lines 205-219), for objects with identity
  rotation and a positive uniform scale, where the world-space AABB of
  the object is scale * localBox + position componentwise;
* the model replacement state machine (setupLoadedModel, lines 184-245)
  as a state plus an event trace (gizmo detach, scene removal, disposal,
  scene add, gizmo attach);
* the environment map lifecycle (applyEnvironmentTexture, lines 294-323,
  and the loadHDRI failure path, lines 347-352);
* the hologram material override (toggleHologram, lines 483-511) with
  materials tagged by identity so that fresh ShaderMaterial instances
  created by createHologramMaterial are distinguishable;
* the transform snapshot and reset (lines 224-229 and 425-430);
* the resource disposer (disposeObject / disposeMaterial, lines 529-550)
  over a scene tree whose materials carry their disposable texture slots.
-/

namespace Gabo3Dview

/-- Vector of three exact rationals, standing for THREE.Vector3. -/
structure V3 where
  x : ℚ
  y : ℚ
  z : ℚ
deriving DecidableEq, Repr

/-- Componentwise difference, as Box3.getSize computes max - min. -/
def boxSize (bmin bmax : V3) : V3 :=
  ⟨bmax.x - bmin.x, bmax.y - bmin.y, bmax.z - bmin.z⟩

/-- Midpoint of the box corners, as Box3.getCenter computes (min + max) / 2. -/
def boxCenter (bmin bmax : V3) : V3 :=
  ⟨(bmin.x + bmax.x) / 2, (bmin.y + bmax.y) / 2, (bmin.z + bmax.z) / 2⟩

/-- Largest of the three size components, as Math.max(size.x, size.y, size.z). -/
def maxDimOf (size : V3) : ℚ :=
  max (max size.x size.y) size.z

/-- Componentwise vector sum. -/
def V3.add (a b : V3) : V3 := ⟨a.x + b.x, a.y + b.y, a.z + b.z⟩

/-- Scalar multiple of a vector. -/
def V3.smul (c : ℚ) (a : V3) : V3 := ⟨c * a.x, c * a.y, c * a.z⟩

/-- Output of the camera framing routine: the new camera position, the
orbit-controls target, and the computed distance factor cameraZ. -/
structure FrameResult where
  cameraPos : V3
  target : V3
  cameraZ : ℚ
deriving DecidableEq, Repr

/-- Embedding of frameModel (src/app.js lines 408-420). The parameter
tanHalfFov is the value of Math.tan(fov / 2) for the camera vertical
field of view; the code multiplies the distance by the 1.2 close-up
margin and offsets the camera by distance * (0.4, 0.25, 0.9) from the
box center, targeting the center. -/
def frameModel (bmin bmax : V3) (tanHalfFov : ℚ) : FrameResult :=
  let size := boxSize bmin bmax
  let center := boxCenter bmin bmax
  let maxDim := maxDimOf size
  let cameraZ := |maxDim / (2 * tanHalfFov)| * (6 / 5)
  { cameraPos := ⟨center.x + cameraZ * (2 / 5),
                  center.y + cameraZ * (1 / 4),
                  center.z + cameraZ * (9 / 10)⟩
    target := center
    cameraZ := cameraZ }

/-- A loaded object with identity rotation: a local-space AABB (the union
of its children's geometry extents), a uniform scale factor, and a world
position. Its world AABB is scale * local + position componentwise, which
is what Box3.setFromObject yields for a non-rotated object with positive
uniform scale. -/
structure LoadedObject where
  position : V3
  scaleFactor : ℚ
  geomMin : V3
  geomMax : V3
deriving DecidableEq, Repr

/-- World-space AABB minimum corner of a loaded object. -/
def worldMin (o : LoadedObject) : V3 :=
  ⟨o.scaleFactor * o.geomMin.x + o.position.x,
   o.scaleFactor * o.geomMin.y + o.position.y,
   o.scaleFactor * o.geomMin.z + o.position.z⟩

/-- World-space AABB maximum corner of a loaded object. -/
def worldMax (o : LoadedObject) : V3 :=
  ⟨o.scaleFactor * o.geomMax.x + o.position.x,
   o.scaleFactor * o.geomMax.y + o.position.y,
   o.scaleFactor * o.geomMax.z + o.position.z⟩

/-- Embedding of the centering/rescaling steps of setupLoadedModel
(src/app.js lines 205-219): compute the world AABB, subtract its center
from the position, lift the position by half the box height, then if the
largest dimension is above 10 or below 0.1 set the uniform scale to
3 / maxDim (scale.setScalar, an absolute assignment). -/
def setupNormalize (o : LoadedObject) : LoadedObject :=
  let bmin := worldMin o
  let bmax := worldMax o
  let size := boxSize bmin bmax
  let center := boxCenter bmin bmax
  let p1 : V3 := ⟨o.position.x - center.x,
                  o.position.y - center.y + size.y / 2,
                  o.position.z - center.z⟩
  let maxDim := maxDimOf size
  if maxDim > 10 ∨ maxDim < 1 / 10 then
    { o with position := p1, scaleFactor := 3 / maxDim }
  else
    { o with position := p1 }

/-- Observable actions performed by the model replacement logic of
setupLoadedModel (src/app.js lines 184-245), in program order:
transformControls.detach(), scene.remove(previous), disposeObject(previous),
scene.add(model), transformControls.attach(model). Models are identified
by an abstract handle. -/
inductive MEvent where
  | detachGizmo
  | removeScene (m : ℕ)
  | disposeModel (m : ℕ)
  | addScene (m : ℕ)
  | attachGizmo (m : ℕ)
deriving DecidableEq, Repr

/-- Model lifecycle state: the current model, the model subtrees attached
to the scene graph, the gizmo binding, and the accumulated event trace. -/
structure ViewerModels where
  currentModel : Option ℕ
  sceneModels : List ℕ
  gizmo : Option ℕ
  trace : List MEvent
deriving DecidableEq, Repr

/-- Initial viewer state: no model loaded, empty scene, empty trace. -/
def initViewer : ViewerModels := ⟨none, [], none, []⟩

/-- Embedding of the replacement portion of setupLoadedModel (src/app.js
lines 184-245): when a current model exists it is detached from the
gizmo, removed from the scene graph and disposed, then the new model is
added to the scene, made current, and bound to the gizmo. -/
def setupLoadedModel (s : ViewerModels) (m : ℕ) : ViewerModels :=
  match s.currentModel with
  | some p =>
      { currentModel := some m
        sceneModels := (s.sceneModels.erase p) ++ [m]
        gizmo := some m
        trace := s.trace ++ [MEvent.detachGizmo, MEvent.removeScene p,
                             MEvent.disposeModel p, MEvent.addScene m,
                             MEvent.attachGizmo m] }
  | none =>
      { currentModel := some m
        sceneModels := s.sceneModels ++ [m]
        gizmo := some m
        trace := s.trace ++ [MEvent.addScene m, MEvent.attachGizmo m] }

/-- Run a sequence of successful model-load completions. -/
def runLoads (s : ViewerModels) : List ℕ → ViewerModels
  | [] => s
  | m :: rest => runLoads (setupLoadedModel s m) rest

/-- Models passed to the resource disposer, read off an event trace. -/
def disposedOf (tr : List MEvent) : List ℕ :=
  tr.filterMap fun e =>
    match e with
    | MEvent.disposeModel m => some m
    | _ => none

/-- Trace produced by a run of load completions from a given current
model, used to characterize runLoads. -/
def mkTrace : Option ℕ → List ℕ → List MEvent
  | _, [] => []
  | none, m :: rest =>
      [MEvent.addScene m, MEvent.attachGizmo m] ++ mkTrace (some m) rest
  | some p, m :: rest =>
      [MEvent.detachGizmo, MEvent.removeScene p, MEvent.disposeModel p,
       MEvent.addScene m, MEvent.attachGizmo m] ++ mkTrace (some m) rest

/-- Material handle. std materials are the originals a model is loaded
with; holo materials are ShaderMaterial instances returned by
createHologramMaterial, tagged by an allocation number so that distinct
instances are distinguishable. -/
inductive Mat where
  | std (id : ℕ)
  | holo (id : ℕ)
deriving DecidableEq, Repr

/-- Mesh inside the current model, for the material override logic:
its stable uuid, its material slot, and its shadow flags. -/
structure Mesh where
  uuid : ℕ
  material : Mat
  castShadow : Bool
  receiveShadow : Bool
deriving DecidableEq, Repr

/-- State touched by toggleHologram (src/app.js lines 483-511): the
current model as a traversal-ordered mesh list, the override-active
flag, the originalMaterials binding map (insertion-ordered association
list keyed by mesh uuid), and the allocation counter for fresh hologram
material instances. -/
structure HologramState where
  currentModel : Option (List Mesh)
  hologramActive : Bool
  originalMaterials : List (ℕ × Mat)
  nextMaterialId : ℕ
deriving DecidableEq, Repr

/-- Enable traversal (src/app.js lines 489-498): for each mesh in order,
snapshot its material into the binding map only if its uuid is not yet a
key, then replace the material with a freshly created hologram instance
and turn both shadow flags off. Returns the rewritten meshes, the
updated map, and the next allocation counter. -/
def enableMeshes : List Mesh → List (ℕ × Mat) → ℕ →
    List Mesh × List (ℕ × Mat) × ℕ
  | [], om, c => ([], om, c)
  | mesh :: rest, om, c =>
      let om' := if (om.lookup mesh.uuid).isSome then om
                 else om ++ [(mesh.uuid, mesh.material)]
      let mesh' : Mesh :=
        { mesh with
          material := Mat.holo c
          castShadow := false
          receiveShadow := false }
      let r := enableMeshes rest om' (c + 1)
      (mesh' :: r.1, r.2.1, r.2.2)

/-- Disable traversal (src/app.js lines 501-509): for each mesh whose
uuid is a key of the binding map, dispose its current material (the
second component collects the dispose calls in order), restore the
recorded original, and turn both shadow flags on; other meshes are left
alone. The binding map itself is not modified. -/
def disableMeshes (om : List (ℕ × Mat)) : List Mesh → List Mesh × List Mat
  | [] => ([], [])
  | mesh :: rest =>
      let r := disableMeshes om rest
      match om.lookup mesh.uuid with
      | some orig =>
          ({ mesh with
             material := orig
             castShadow := true
             receiveShadow := true } :: r.1,
           mesh.material :: r.2)
      | none => (mesh :: r.1, r.2)

/-- Embedding of toggleHologram (src/app.js lines 483-511). Returns the
new state and the list of materials passed to dispose during the call.
With no current model the function returns immediately, before even the
hologramActive assignment. -/
def toggleHologram (enabled : Bool) (s : HologramState) :
    HologramState × List Mat :=
  match s.currentModel with
  | none => (s, [])
  | some meshes =>
      if enabled then
        let r := enableMeshes meshes s.originalMaterials s.nextMaterialId
        ({ s with
           currentModel := some r.1
           hologramActive := true
           originalMaterials := r.2.1
           nextMaterialId := r.2.2 }, [])
      else
        let r := disableMeshes s.originalMaterials meshes
        ({ s with currentModel := some r.1, hologramActive := false }, r.2)

/-- Hologram-state reset performed by setupLoadedModel on every model
replacement (src/app.js lines 231-233): clear the active flag and the
binding map. -/
def resetHologramOnLoad (s : HologramState) : HologramState :=
  { s with hologramActive := false, originalMaterials := [] }

/-- Meshes as rewritten by one enable pass starting at allocation
counter c: mesh k receives the fresh hologram instance number c + k and
loses its shadow flags. -/
def holoize (c : ℕ) : List Mesh → List Mesh
  | [] => []
  | mesh :: rest =>
      { mesh with
        material := Mat.holo c
        castShadow := false
        receiveShadow := false } :: holoize (c + 1) rest

/-- Scene background: either a solid color or an environment texture. -/
inductive Background where
  | color (c : ℕ)
  | tex (t : ℕ)
deriving DecidableEq, Repr

/-- Material fields touched by the environment update loop of
applyEnvironmentTexture: the env-map reference, its intensity, and the
needsUpdate flag. -/
structure EnvMat where
  envMap : Option ℕ
  envMapIntensity : ℚ
  needsUpdate : Bool
deriving DecidableEq, Repr

/-- Mesh as seen by the environment update loop: the loop only touches
meshes that actually carry a material (the child.material truthiness
check). -/
structure EMesh where
  uuid : ℕ
  material : Option EnvMat
deriving DecidableEq, Repr

/-- Observable actions of the environment lifecycle, in program order. -/
inductive EEvent where
  | setEnvironment (t : ℕ)
  | setBackground (t : ℕ)
  | disposeTexture (t : ℕ)
  | setMeshEnvMap (u : ℕ) (t : ℕ)
  | alertShown
deriving DecidableEq, Repr

/-- Viewer state touched by the environment lifecycle. -/
structure EnvState where
  sceneEnvironment : Option ℕ
  sceneBackground : Background
  currentHDRI : Option ℕ
  currentModel : Option (List EMesh)
deriving DecidableEq, Repr

/-- Mesh update loop of applyEnvironmentTexture (src/app.js lines
312-320): every mesh with a material gets its envMap set to the new
texture, intensity 1, needsUpdate true; the second component records the
setMeshEnvMap actions in traversal order. -/
def applyEnvToMeshes (t : ℕ) : List EMesh → List EMesh × List EEvent
  | [] => ([], [])
  | mesh :: rest =>
      let r := applyEnvToMeshes t rest
      match mesh.material with
      | some _ =>
          ({ mesh with material := some ⟨some t, 1, true⟩ } :: r.1,
           EEvent.setMeshEnvMap mesh.uuid t :: r.2)
      | none => (mesh :: r.1, r.2)

/-- Embedding of applyEnvironmentTexture (src/app.js lines 294-323):
set the new texture as scene environment and background, then dispose
the previous HDRI if one exists, record it as current, and only then
update every current mesh's env-map reference. Returns the new state
and the ordered action trace. -/
def applyEnvironmentTexture (t : ℕ) (s : EnvState) : EnvState × List EEvent :=
  let disposeEvents := match s.currentHDRI with
    | some p => [EEvent.disposeTexture p]
    | none => []
  match s.currentModel with
  | some meshes =>
      let r := applyEnvToMeshes t meshes
      ({ sceneEnvironment := some t
         sceneBackground := Background.tex t
         currentHDRI := some t
         currentModel := some r.1 },
       [EEvent.setEnvironment t, EEvent.setBackground t] ++ disposeEvents ++ r.2)
  | none =>
      ({ sceneEnvironment := some t
         sceneBackground := Background.tex t
         currentHDRI := some t
         currentModel := none },
       [EEvent.setEnvironment t, EEvent.setBackground t] ++ disposeEvents)

/-- Failure path of loadHDRI (src/app.js lines 347-352): the error
callback only hides the loading overlay, shows an alert, and revokes the
object URL; no field of the viewer state is written. -/
def loadHDRIFailure (s : EnvState) : EnvState × List EEvent :=
  (s, [EEvent.alertShown])

/-- Transform of the current model: position, Euler rotation, scale. -/
structure Transform where
  position : V3
  eulerRot : V3
  scale : V3
deriving DecidableEq, Repr

/-- State touched by resetModelTransform: the current model transform
and the initial-transform snapshot captured at load time. -/
structure TransformState where
  currentModel : Option Transform
  modelInitialTransform : Option Transform
deriving DecidableEq, Repr

/-- Snapshot step of setupLoadedModel (src/app.js lines 224-229): the
freshly loaded model becomes current and its transform is cloned into
modelInitialTransform. -/
def loadSnapshot (t : Transform) : TransformState := ⟨some t, some t⟩

/-- A user transform edit (gizmo drag, auto-rotate tick): an arbitrary
rewrite of the current model transform; the snapshot is never touched. -/
def applyTransformEdit (f : Transform → Transform) (s : TransformState) :
    TransformState :=
  { s with currentModel := s.currentModel.map f }

/-- Run a sequence of transform edits. -/
def runTransformEdits (fs : List (Transform → Transform)) (s : TransformState) :
    TransformState :=
  fs.foldl (fun s f => applyTransformEdit f s) s

/-- Embedding of resetModelTransform (src/app.js lines 425-430): when
both a current model and a snapshot exist, copy the snapshot position,
rotation and scale onto the model; otherwise return unchanged. -/
def resetModelTransform (s : TransformState) : TransformState :=
  match s.currentModel, s.modelInitialTransform with
  | some _, some t0 => { s with currentModel := some t0 }
  | _, _ => s

/-- Material as seen by disposeMaterial (src/app.js lines 542-550): its
own dispose handle plus the disposable objects (textures) found among
its property values, in key order. -/
structure GMaterial where
  matId : ℕ
  textures : List ℕ
deriving DecidableEq, Repr

/-- Material slot of a scene node: absent, a single material, or an
array of materials (both shapes are valid in the scene graph). -/
inductive MatSlot where
  | vacant
  | one (m : GMaterial)
  | many (ms : List GMaterial)
deriving DecidableEq, Repr

/-- Disposable GPU resource handles. -/
inductive RHandle where
  | geom (n : ℕ)
  | mat (n : ℕ)
  | tex (n : ℕ)
deriving DecidableEq, Repr

mutual
/-- Scene node: an optional geometry, a material slot, and children.
Non-mesh nodes (groups, lights) simply have no geometry and a vacant
material slot. -/
inductive SceneNode where
  | mk (geom : Option ℕ) (mats : MatSlot) (children : SceneChildren)
/-- Ordered list of child nodes, as a mutual inductive so that all
recursions and inductions below stay structural. -/
inductive SceneChildren where
  | nil
  | cons (head : SceneNode) (tail : SceneChildren)
end

/-- Dispose calls emitted by disposeMaterial (src/app.js lines 542-550):
every disposable property value first, then the material itself. -/
def disposeMaterial (m : GMaterial) : List RHandle :=
  m.textures.map RHandle.tex ++ [RHandle.mat m.matId]

/-- Dispose calls for a node's material slot (src/app.js lines 532-538):
nothing for a missing material, disposeMaterial once for a single one,
and disposeMaterial per element for an array. -/
def disposeSlot : MatSlot → List RHandle
  | MatSlot.vacant => []
  | MatSlot.one m => disposeMaterial m
  | MatSlot.many ms => (ms.map disposeMaterial).flatten

mutual
/-- Embedding of disposeObject (src/app.js lines 529-540): obj.traverse
visits the node itself first (geometry dispose if present, then the
material slot), then each child subtree in order. -/
def disposeObject : SceneNode → List RHandle
  | SceneNode.mk g mats children =>
      (match g with | some n => [RHandle.geom n] | none => []) ++
        disposeSlot mats ++ disposeChildren children
/-- Dispose calls for a list of child subtrees, in order. -/
def disposeChildren : SceneChildren → List RHandle
  | SceneChildren.nil => []
  | SceneChildren.cons h t => disposeObject h ++ disposeChildren t
end

/-- Materials held by a slot, as data (not as dispose calls). -/
def slotMats : MatSlot → List GMaterial
  | MatSlot.vacant => []
  | MatSlot.one m => [m]
  | MatSlot.many ms => ms

mutual
/-- Geometry handles present in a subtree. -/
def nodeGeoms : SceneNode → List ℕ
  | SceneNode.mk g _ children =>
      (match g with | some n => [n] | none => []) ++ childrenGeoms children
/-- Geometry handles present in a list of subtrees. -/
def childrenGeoms : SceneChildren → List ℕ
  | SceneChildren.nil => []
  | SceneChildren.cons h t => nodeGeoms h ++ childrenGeoms t
end

mutual
/-- Materials present in a subtree. -/
def nodeMats : SceneNode → List GMaterial
  | SceneNode.mk _ mats children => slotMats mats ++ childrenMats children
/-- Materials present in a list of subtrees. -/
def childrenMats : SceneChildren → List GMaterial
  | SceneChildren.nil => []
  | SceneChildren.cons h t => nodeMats h ++ childrenMats t
end

/-- All disposable GPU resources owned by a subtree, grouped by kind:
its geometries, its materials, and the textures referenced by those
materials. -/
def resources (o : SceneNode) : List RHandle :=
  (nodeGeoms o).map RHandle.geom ++
    (nodeMats o).map (fun m => RHandle.mat m.matId) ++
    ((nodeMats o).map GMaterial.textures).flatten.map RHandle.tex

/-! Helper lemmas for the transform snapshot. -/

/-- Transform edits never write the initial-transform snapshot. -/
theorem runTransformEdits_snapshot (fs : List (Transform → Transform))
    (s : TransformState) :
    (runTransformEdits fs s).modelInitialTransform = s.modelInitialTransform := by
  induction fs generalizing s with
  | nil => rfl
  | cons f rest ih =>
      simpa [runTransformEdits, List.foldl_cons] using
        ih (applyTransformEdit f s)

/-- Transform edits keep a model present. -/
theorem runTransformEdits_isSome (fs : List (Transform → Transform))
    (s : TransformState) :
    (runTransformEdits fs s).currentModel.isSome = s.currentModel.isSome := by
  induction fs generalizing s with
  | nil => rfl
  | cons f rest ih =>
      rw [show runTransformEdits (f :: rest) s
            = runTransformEdits rest (applyTransformEdit f s) from rfl, ih]
      cases h : s.currentModel <;> simp [applyTransformEdit, h]

/-- Reset on a state with a model and a snapshot yields the snapshot in
both fields. -/
theorem resetModelTransform_of_some {s : TransformState} {x t0 : Transform}
    (hc : s.currentModel = some x) (hi : s.modelInitialTransform = some t0) :
    resetModelTransform s = ⟨some t0, some t0⟩ := by
  cases s with
  | mk cm mit =>
      cases hc
      cases hi
      rfl

/-- C9: for every current model and every sequence of transform edits made
after loading, invoking the reset-transform operation restores the model's
position, rotation, and scale exactly to the initial-transform snapshot
captured at load time; when there is no current model or no snapshot, the
operation changes nothing. -/
theorem C9_reset_transform :
    (∀ (t : Transform) (fs : List (Transform → Transform)),
        resetModelTransform (runTransformEdits fs (loadSnapshot t))
          = loadSnapshot t) ∧
    (∀ s : TransformState, s.currentModel = none → resetModelTransform s = s) ∧
    (∀ s : TransformState, s.modelInitialTransform = none →
        resetModelTransform s = s) := by
  refine ⟨?_, ?_, ?_⟩
  · intro t fs
    have hi : (runTransformEdits fs (loadSnapshot t)).modelInitialTransform
        = some t := by
      rw [runTransformEdits_snapshot]; rfl
    have hsome : (runTransformEdits fs (loadSnapshot t)).currentModel.isSome = true := by
      rw [runTransformEdits_isSome]; rfl
    obtain ⟨x, hx⟩ := Option.isSome_iff_exists.mp hsome
    exact resetModelTransform_of_some hx hi
  · intro s h
    cases s with
    | mk cm mit => cases h; rfl
  · intro s h
    cases s with
    | mk cm mit =>
        cases h
        cases cm <;> rfl

/-- C9 witness: a concrete load, one concrete edit, then reset. -/
theorem C9_reset_transform_witness :
    resetModelTransform (runTransformEdits
        [fun tr => { tr with position := ⟨1, 2, 3⟩ }]
        (loadSnapshot ⟨⟨0, 0, 0⟩, ⟨0, 0, 0⟩, ⟨1, 1, 1⟩⟩))
      = loadSnapshot ⟨⟨0, 0, 0⟩, ⟨0, 0, 0⟩, ⟨1, 1, 1⟩⟩ ∧
    resetModelTransform ⟨none, none⟩ = (⟨none, none⟩ : TransformState) :=
  ⟨C9_reset_transform.1 ⟨⟨0, 0, 0⟩, ⟨0, 0, 0⟩, ⟨1, 1, 1⟩⟩
      [fun tr => { tr with position := ⟨1, 2, 3⟩ }],
   C9_reset_transform.2.1 ⟨none, none⟩ rfl⟩

/-- C10: toggling the material override (in either direction) when there is
no current model is a complete no-op: the override-active flag, the binding
map, and every mesh material remain unchanged, and nothing is disposed. -/
theorem C10_toggle_without_model (b : Bool) (s : HologramState)
    (h : s.currentModel = none) :
    toggleHologram b s = (s, []) := by
  simp [toggleHologram, h]

/-- C10 witness: both toggle directions on a concrete model-less state. -/
theorem C10_toggle_without_model_witness :
    (⟨none, false, [(5, Mat.std 9)], 3⟩ : HologramState).currentModel = none ∧
    toggleHologram true ⟨none, false, [(5, Mat.std 9)], 3⟩
      = (⟨none, false, [(5, Mat.std 9)], 3⟩, []) ∧
    toggleHologram false ⟨none, false, [(5, Mat.std 9)], 3⟩
      = (⟨none, false, [(5, Mat.std 9)], 3⟩, []) :=
  ⟨rfl,
   C10_toggle_without_model true ⟨none, false, [(5, Mat.std 9)], 3⟩ rfl,
   C10_toggle_without_model false ⟨none, false, [(5, Mat.std 9)], 3⟩ rfl⟩

/-- C3: the claim asks for a strictly positive camera distance on every
object, with small maxDim clamped to an epsilon. The code has no such
clamp: on a degenerate AABB (min = max, zero size) frameModel computes
cameraZ = |0 / (2 tan(fov/2))| * 1.2 = 0 for every tangent value, and the
camera position coincides with the look-at target. -/
theorem C3_no_epsilon_clamp (t : ℚ) :
    (frameModel ⟨0, 0, 0⟩ ⟨0, 0, 0⟩ t).cameraZ = 0 ∧
    (frameModel ⟨0, 0, 0⟩ ⟨0, 0, 0⟩ t).cameraPos
      = (frameModel ⟨0, 0, 0⟩ ⟨0, 0, 0⟩ t).target := by
  constructor <;> norm_num [frameModel, maxDimOf, boxSize, boxCenter]

/-- C4 counterexample: a unit-scale cube with local AABB from (0,0,0) to
(20,20,20) has pre-normalization maxDim 20, outside [0.1, 10], so the
rescale branch fires; because scale.setScalar is applied about the
object's local origin after the centering translation, the
post-normalization world AABB center has x = -17/2, not 0 (far beyond
floating-point tolerance), refuting the claim as stated. -/
theorem C4_counterexample :
    maxDimOf (boxSize (worldMin ⟨⟨0, 0, 0⟩, 1, ⟨0, 0, 0⟩, ⟨20, 20, 20⟩⟩)
        (worldMax ⟨⟨0, 0, 0⟩, 1, ⟨0, 0, 0⟩, ⟨20, 20, 20⟩⟩)) = 20 ∧
    (boxCenter
        (worldMin (setupNormalize ⟨⟨0, 0, 0⟩, 1, ⟨0, 0, 0⟩, ⟨20, 20, 20⟩⟩))
        (worldMax (setupNormalize ⟨⟨0, 0, 0⟩, 1, ⟨0, 0, 0⟩, ⟨20, 20, 20⟩⟩))).x
      = -17 / 2 ∧
    ¬ (boxCenter
        (worldMin (setupNormalize ⟨⟨0, 0, 0⟩, 1, ⟨0, 0, 0⟩, ⟨20, 20, 20⟩⟩))
        (worldMax (setupNormalize ⟨⟨0, 0, 0⟩, 1, ⟨0, 0, 0⟩, ⟨20, 20, 20⟩⟩))).x
      = 0 := by
  refine ⟨?_, ?_, ?_⟩ <;>
    norm_num [setupNormalize, maxDimOf, boxSize, boxCenter, worldMin, worldMax]

/-- C4 amended: the translation steps do center the model (world AABB
center x and z become 0 and minimum y becomes 0, exactly in rational
arithmetic, for every pre-load position and positive uniform scale) and
these equalities survive normalization whenever the rescale branch does
not fire; when the pre-normalization maxDim lies outside [0.1, 10] (at
pre-load scale 1 and positive maxDim) the post-normalization largest
dimension does equal 3, but the rescale is applied about the object's
local origin after the translation, so the centering equalities need not
survive it (see the counterexample). -/
theorem C4_centering_amended (o : LoadedObject) :
    (¬ (maxDimOf (boxSize (worldMin o) (worldMax o)) > 10 ∨
        maxDimOf (boxSize (worldMin o) (worldMax o)) < 1 / 10) →
      (boxCenter (worldMin (setupNormalize o))
          (worldMax (setupNormalize o))).x = 0 ∧
      (boxCenter (worldMin (setupNormalize o))
          (worldMax (setupNormalize o))).z = 0 ∧
      (worldMin (setupNormalize o)).y = 0) ∧
    (o.scaleFactor = 1 →
      0 < maxDimOf (boxSize (worldMin o) (worldMax o)) →
      (maxDimOf (boxSize (worldMin o) (worldMax o)) > 10 ∨
       maxDimOf (boxSize (worldMin o) (worldMax o)) < 1 / 10) →
      maxDimOf (boxSize (worldMin (setupNormalize o))
          (worldMax (setupNormalize o))) = 3) := by
  constructor
  · intro hcond
    rw [setupNormalize]
    simp only [if_neg hcond]
    refine ⟨?_, ?_, ?_⟩ <;>
      · simp only [worldMin, worldMax, boxCenter, boxSize]
        ring
  · intro hs hpos hcond
    rw [setupNormalize]
    simp only [if_pos hcond]
    set D := maxDimOf (boxSize (worldMin o) (worldMax o)) with hD
    have hsize : boxSize
        (worldMin { o with
          position := ⟨o.position.x -
              (boxCenter (worldMin o) (worldMax o)).x,
            o.position.y - (boxCenter (worldMin o) (worldMax o)).y +
              (boxSize (worldMin o) (worldMax o)).y / 2,
            o.position.z - (boxCenter (worldMin o) (worldMax o)).z⟩
          scaleFactor := 3 / D })
        (worldMax { o with
          position := ⟨o.position.x -
              (boxCenter (worldMin o) (worldMax o)).x,
            o.position.y - (boxCenter (worldMin o) (worldMax o)).y +
              (boxSize (worldMin o) (worldMax o)).y / 2,
            o.position.z - (boxCenter (worldMin o) (worldMax o)).z⟩
          scaleFactor := 3 / D })
        = ⟨3 / D * (o.geomMax.x - o.geomMin.x),
           3 / D * (o.geomMax.y - o.geomMin.y),
           3 / D * (o.geomMax.z - o.geomMin.z)⟩ := by
      simp only [worldMin, worldMax, boxSize, V3.mk.injEq]
      refine ⟨by ring, by ring, by ring⟩
    rw [hsize]
    have hk : (0 : ℚ) ≤ 3 / D := by positivity
    have hDval : D = maxDimOf ⟨o.geomMax.x - o.geomMin.x,
        o.geomMax.y - o.geomMin.y, o.geomMax.z - o.geomMin.z⟩ := by
      rw [hD]
      simp only [worldMin, worldMax, boxSize, maxDimOf, hs]
      ring_nf
    rw [maxDimOf, ← mul_max_of_nonneg _ _ hk, ← mul_max_of_nonneg _ _ hk]
    have : max (max (o.geomMax.x - o.geomMin.x) (o.geomMax.y - o.geomMin.y))
        (o.geomMax.z - o.geomMin.z) = D := by
      rw [hDval]; rfl
    rw [this]
    field_simp

/-- C4 witness: a cube of side 20 sitting away from the origin, which
takes the rescale branch, and a unit cube at an offset, which does not. -/
theorem C4_centering_amended_witness :
    maxDimOf (boxSize (worldMin (setupNormalize
        (⟨⟨4, 5, 6⟩, 1, ⟨0, 0, 0⟩, ⟨20, 20, 20⟩⟩ : LoadedObject)))
      (worldMax (setupNormalize
        (⟨⟨4, 5, 6⟩, 1, ⟨0, 0, 0⟩, ⟨20, 20, 20⟩⟩ : LoadedObject)))) = 3 ∧
    (boxCenter (worldMin (setupNormalize
        (⟨⟨7, 8, 9⟩, 1, ⟨0, 0, 0⟩, ⟨1, 1, 1⟩⟩ : LoadedObject)))
      (worldMax (setupNormalize
        (⟨⟨7, 8, 9⟩, 1, ⟨0, 0, 0⟩, ⟨1, 1, 1⟩⟩ : LoadedObject)))).x = 0 := by
  refine ⟨?_, ?_⟩
  · exact (C4_centering_amended ⟨⟨4, 5, 6⟩, 1, ⟨0, 0, 0⟩, ⟨20, 20, 20⟩⟩).2 rfl
      (by norm_num [maxDimOf, boxSize, worldMin, worldMax])
      (by norm_num [maxDimOf, boxSize, worldMin, worldMax])
  · exact ((C4_centering_amended ⟨⟨7, 8, 9⟩, 1, ⟨0, 0, 0⟩, ⟨1, 1, 1⟩⟩).1
      (by norm_num [maxDimOf, boxSize, worldMin, worldMax])).1

/-! Helper lemmas for the model replacement state machine. -/

/-- A load completion always leaves the loaded model current. -/
theorem setupLoadedModel_current (s : ViewerModels) (m : ℕ) :
    (setupLoadedModel s m).currentModel = some m := by
  rw [setupLoadedModel]
  cases s.currentModel <;> rfl

/-- Trace of a run of load completions, as the accumulated trace plus
the trace generated from the starting current model. -/
theorem runLoads_trace (ms : List ℕ) (s : ViewerModels) :
    (runLoads s ms).trace = s.trace ++ mkTrace s.currentModel ms := by
  induction ms generalizing s with
  | nil => simp [runLoads, mkTrace]
  | cons m rest ih =>
      rw [show runLoads s (m :: rest) = runLoads (setupLoadedModel s m) rest
          from rfl, ih, setupLoadedModel_current]
      cases h : s.currentModel <;>
        simp [setupLoadedModel, h, mkTrace, List.append_assoc]

/-- The current model after a run is the last load, if any. -/
theorem runLoads_current (ms : List ℕ) (s : ViewerModels) :
    (runLoads s ms).currentModel = ms.getLast?.or s.currentModel := by
  induction ms generalizing s with
  | nil => rfl
  | cons m rest ih =>
      rw [show runLoads s (m :: rest) = runLoads (setupLoadedModel s m) rest
          from rfl, ih, setupLoadedModel_current]
      cases rest with
      | nil => rfl
      | cons b l =>
          obtain ⟨a, ha⟩ := Option.isSome_iff_exists.mp
            (List.getLast?_isSome.mpr (List.cons_ne_nil b l))
          rw [List.getLast?_cons_cons, ha]
          rfl

/-- The scene graph holds exactly the current model subtree throughout
any run starting from a state satisfying that invariant. -/
theorem runLoads_scene (ms : List ℕ) (s : ViewerModels)
    (h : s.sceneModels = s.currentModel.toList) :
    (runLoads s ms).sceneModels = (runLoads s ms).currentModel.toList := by
  induction ms generalizing s with
  | nil => exact h
  | cons m rest ih =>
      refine ih (setupLoadedModel s m) ?_
      cases hc : s.currentModel with
      | none => simp [setupLoadedModel, hc, h, hc ▸ h]
      | some p => simp [setupLoadedModel, hc, hc ▸ h]

/-- Models disposed along a generated trace: every model that was current
when a later load completed, in order; that is, all but the last. -/
theorem disposedOf_mkTrace (ms : List ℕ) (cur : Option ℕ) (h : ms ≠ []) :
    disposedOf (mkTrace cur ms) = cur.toList ++ ms.dropLast := by
  induction ms generalizing cur with
  | nil => exact absurd rfl h
  | cons m rest ih =>
      cases rest with
      | nil => cases cur <;> simp [mkTrace, disposedOf]
      | cons b l =>
          have hrest : (b :: l) ≠ [] := List.cons_ne_nil b l
          have hstep : mkTrace cur (m :: b :: l)
              = (match cur with
                 | some p => [MEvent.detachGizmo, MEvent.removeScene p,
                              MEvent.disposeModel p]
                 | none => []) ++ [MEvent.addScene m, MEvent.attachGizmo m]
                ++ mkTrace (some m) (b :: l) := by
            cases cur <;> rfl
          rw [hstep]
          rw [disposedOf, List.filterMap_append, List.filterMap_append]
          rw [show List.filterMap _ (mkTrace (some m) (b :: l))
              = disposedOf (mkTrace (some m) (b :: l)) from rfl, ih _ hrest]
          cases cur <;> simp [disposedOf]

/-- For every two consecutive loads p then m anywhere in the run, the
trace contains, in order: gizmo detach, scene removal of p, disposal of
p, scene add of m, gizmo attach of m. -/
theorem mkTrace_block_sublist (l₁ : List ℕ) (p m : ℕ) (l₂ : List ℕ)
    (cur : Option ℕ) :
    [MEvent.detachGizmo, MEvent.removeScene p, MEvent.disposeModel p,
     MEvent.addScene m, MEvent.attachGizmo m].Sublist
      (mkTrace cur (l₁ ++ p :: m :: l₂)) := by
  induction l₁ generalizing cur with
  | nil =>
      have h2 : mkTrace (some p) (m :: l₂)
          = [MEvent.detachGizmo, MEvent.removeScene p, MEvent.disposeModel p,
             MEvent.addScene m, MEvent.attachGizmo m] ++ mkTrace (some m) l₂ :=
        rfl
      have h1 : mkTrace cur ([] ++ p :: m :: l₂)
          = (match cur with
             | some q => [MEvent.detachGizmo, MEvent.removeScene q,
                          MEvent.disposeModel q]
             | none => []) ++ [MEvent.addScene p, MEvent.attachGizmo p]
            ++ mkTrace (some p) (m :: l₂) := by
        cases cur <;> rfl
      rw [h1, h2]
      exact ((List.sublist_append_left _ _).trans
        (List.sublist_append_right _ _))
  | cons a l₁ ih =>
      have h1 : mkTrace cur ((a :: l₁) ++ p :: m :: l₂)
          = (match cur with
             | some q => [MEvent.detachGizmo, MEvent.removeScene q,
                          MEvent.disposeModel q]
             | none => []) ++ [MEvent.addScene a, MEvent.attachGizmo a]
            ++ mkTrace (some a) (l₁ ++ p :: m :: l₂) := by
        cases cur <;> rfl
      rw [h1]
      exact (ih (some a)).trans (List.sublist_append_right _ _)

/-- C1: for every sequence of successful model loads, after each load at
most one model subtree is attached to the scene graph (exactly the
current one), every previously loaded model has been disposed exactly
once and the final model never, and for each consecutive pair of loads
the trace records gizmo detach, scene removal, and disposal of the
previous model before the new model is added to the scene and attached
to the gizmo. -/
theorem C1_model_replacement (ms : List ℕ) (hnd : ms.Nodup) :
    (runLoads initViewer ms).currentModel = ms.getLast? ∧
    (runLoads initViewer ms).sceneModels
      = (runLoads initViewer ms).currentModel.toList ∧
    disposedOf (runLoads initViewer ms).trace = ms.dropLast ∧
    (∀ m ∈ ms.dropLast,
      (disposedOf (runLoads initViewer ms).trace).count m = 1) ∧
    (∀ m, (runLoads initViewer ms).currentModel = some m →
      (disposedOf (runLoads initViewer ms).trace).count m = 0) ∧
    (∀ l₁ p m l₂, ms = l₁ ++ p :: m :: l₂ →
      [MEvent.detachGizmo, MEvent.removeScene p, MEvent.disposeModel p,
       MEvent.addScene m, MEvent.attachGizmo m].Sublist
        (runLoads initViewer ms).trace) := by
  have hcur : (runLoads initViewer ms).currentModel = ms.getLast? := by
    rw [runLoads_current]
    cases h : ms.getLast? <;> rfl
  have hdisp : disposedOf (runLoads initViewer ms).trace = ms.dropLast := by
    rw [runLoads_trace]
    cases ms with
    | nil => rfl
    | cons m rest =>
        rw [show (initViewer.trace ++ mkTrace initViewer.currentModel
            (m :: rest)) = mkTrace none (m :: rest) from rfl]
        rw [disposedOf_mkTrace _ _ (List.cons_ne_nil m rest)]
        rfl
  refine ⟨hcur, runLoads_scene ms initViewer rfl, hdisp, ?_, ?_, ?_⟩
  · intro m hm
    rw [hdisp]
    exact List.count_eq_one_of_mem
      ((List.dropLast_sublist ms).nodup hnd) hm
  · intro m hm
    rw [hdisp]
    rw [hcur] at hm
    have hne : ms ≠ [] := by
      intro h
      rw [h] at hm
      exact Option.noConfusion hm
    have hlast : ms.getLast hne = m := by
      have := List.getLast?_eq_getLast ms hne
      rw [this] at hm
      exact (Option.some.injEq _ _).mp hm
    have hsplit : ms.dropLast ++ [m] = ms := by
      rw [← hlast]
      exact List.dropLast_append_getLast hne
    have hcount : ms.count m = 1 := by
      refine List.count_eq_one_of_mem hnd ?_
      rw [← hlast]
      exact List.getLast_mem hne
    have hsum : (ms.dropLast ++ [m]).count m = 1 := by rw [hsplit, hcount]
    have hone : List.count m [m] = 1 := by simp
    rw [List.count_append, hone] at hsum
    omega
  · intro l₁ p m l₂ hsplit
    rw [runLoads_trace, hsplit]
    exact mkTrace_block_sublist l₁ p m l₂ none

/-- C1 witness: two consecutive loads from the initial state. -/
theorem C1_model_replacement_witness :
    (runLoads initViewer [0, 1]).currentModel = some 1 ∧
    (runLoads initViewer [0, 1]).sceneModels = [1] ∧
    disposedOf (runLoads initViewer [0, 1]).trace = [0] ∧
    (disposedOf (runLoads initViewer [0, 1]).trace).count 0 = 1 ∧
    (disposedOf (runLoads initViewer [0, 1]).trace).count 1 = 0 ∧
    [MEvent.detachGizmo, MEvent.removeScene 0, MEvent.disposeModel 0,
     MEvent.addScene 1, MEvent.attachGizmo 1].Sublist
      (runLoads initViewer [0, 1]).trace := by
  obtain ⟨h1, h2, h3, h4, h5, h6⟩ := C1_model_replacement [0, 1] (by decide)
  refine ⟨h1.trans rfl, ?_, h3.trans rfl, ?_, ?_, ?_⟩
  · rw [h2, h1]; rfl
  · exact h4 0 (by decide)
  · exact h5 1 (h1.trans rfl)
  · exact h6 [] 0 1 [] rfl

/-! Helper lemmas for the environment lifecycle. -/

/-- After the mesh update loop, every mesh that carries a material
references the new texture. -/
theorem applyEnvToMeshes_envMap (t : ℕ) (meshes : List EMesh) :
    ∀ m' ∈ (applyEnvToMeshes t meshes).1, ∀ mat, m'.material = some mat →
      mat.envMap = some t := by
  induction meshes with
  | nil => intro m' hm'; simp [applyEnvToMeshes] at hm'
  | cons mesh rest ih =>
      intro m' hm' mat hmat
      rw [applyEnvToMeshes] at hm'
      cases hmm : mesh.material with
      | some q =>
          rw [hmm] at hm'
          rcases List.mem_cons.mp hm' with h | h
          · rw [h] at hmat
            simp only at hmat
            cases hmat
            rfl
          · exact ih m' h mat hmat
      | none =>
          rw [hmm] at hm'
          rcases List.mem_cons.mp hm' with h | h
          · rw [h] at hmat
            rw [hmat] at hmm
            exact Option.noConfusion hmm
          · exact ih m' h mat hmat

/-- Every mesh that carries a material gets a setMeshEnvMap action in
the update loop's trace. -/
theorem applyEnvToMeshes_event_mem (t : ℕ) (meshes : List EMesh) :
    ∀ m ∈ meshes, m.material.isSome →
      EEvent.setMeshEnvMap m.uuid t ∈ (applyEnvToMeshes t meshes).2 := by
  induction meshes with
  | nil => intro m hm; simp at hm
  | cons mesh rest ih =>
      intro m hm hsome
      rw [applyEnvToMeshes]
      rcases List.mem_cons.mp hm with h | h
      · subst h
        obtain ⟨q, hq⟩ := Option.isSome_iff_exists.mp hsome
        rw [hq]
        exact List.mem_cons_self _ _
      · cases hmm : mesh.material with
        | some q =>
            simp only [hmm]
            exact List.mem_cons_of_mem _ (ih m h hsome)
        | none =>
            simp only [hmm]
            exact ih m h hsome

/-- The mesh update loop never disposes anything. -/
theorem applyEnvToMeshes_no_dispose (t p : ℕ) (meshes : List EMesh) :
    ((applyEnvToMeshes t meshes).2).count (EEvent.disposeTexture p) = 0 := by
  induction meshes with
  | nil => rfl
  | cons mesh rest ih =>
      rw [applyEnvToMeshes]
      cases hmm : mesh.material <;> simp [List.count_cons, ih]

/-- C2 counterexample: with a previous environment (texture 7) active
and a one-mesh model present, loading texture 9 produces the action
trace [setEnvironment 9, setBackground 9, disposeTexture 7,
setMeshEnvMap 0 9]: the previous texture is disposed before the mesh's
environment-map reference is updated, refuting the claim that disposal
happens only after the new texture is fully applied to every current
mesh. -/
theorem C2_counterexample :
    (applyEnvironmentTexture 9
        ⟨some 7, Background.tex 7, some 7, some [⟨0, some ⟨some 7, 1, false⟩⟩]⟩).2
      = [EEvent.setEnvironment 9, EEvent.setBackground 9,
         EEvent.disposeTexture 7, EEvent.setMeshEnvMap 0 9] ∧
    [EEvent.disposeTexture 7, EEvent.setMeshEnvMap 0 9].Sublist
      (applyEnvironmentTexture 9
        ⟨some 7, Background.tex 7, some 7, some [⟨0, some ⟨some 7, 1, false⟩⟩]⟩).2 ∧
    ¬ [EEvent.setMeshEnvMap 0 9, EEvent.disposeTexture 7].Sublist
      (applyEnvironmentTexture 9
        ⟨some 7, Background.tex 7, some 7, some [⟨0, some ⟨some 7, 1, false⟩⟩]⟩).2 := by
  refine ⟨rfl, ?_, ?_⟩ <;> decide

/-- C2 amended: on a successful environment-map load with a previous
environment p and a current model, the new texture ends up as lighting
environment, background, current environment, and every materialized
mesh's env-map reference; the previous environment is disposed exactly
once, after the texture is set as environment and background but before
the mesh env-map references are updated. On a failed load the viewer
state is unchanged and a user-visible message is emitted. -/
theorem C2_env_replace_amended (t p : ℕ) (s : EnvState) (meshes : List EMesh)
    (hp : s.currentHDRI = some p) (hm : s.currentModel = some meshes) :
    (applyEnvironmentTexture t s).1.sceneEnvironment = some t ∧
    (applyEnvironmentTexture t s).1.sceneBackground = Background.tex t ∧
    (applyEnvironmentTexture t s).1.currentHDRI = some t ∧
    (∀ m' ∈ ((applyEnvironmentTexture t s).1.currentModel.getD []),
      ∀ mat, m'.material = some mat → mat.envMap = some t) ∧
    [EEvent.setEnvironment t, EEvent.disposeTexture p].Sublist
      (applyEnvironmentTexture t s).2 ∧
    [EEvent.setBackground t, EEvent.disposeTexture p].Sublist
      (applyEnvironmentTexture t s).2 ∧
    (∀ m ∈ meshes, m.material.isSome →
      [EEvent.disposeTexture p, EEvent.setMeshEnvMap m.uuid t].Sublist
        (applyEnvironmentTexture t s).2) ∧
    ((applyEnvironmentTexture t s).2).count (EEvent.disposeTexture p) = 1 ∧
    (∀ s' : EnvState, loadHDRIFailure s' = (s', [EEvent.alertShown])) := by
  have htr : (applyEnvironmentTexture t s).2
      = EEvent.setEnvironment t :: EEvent.setBackground t ::
        EEvent.disposeTexture p :: (applyEnvToMeshes t meshes).2 := by
    simp [applyEnvironmentTexture, hp, hm]
  have hst : (applyEnvironmentTexture t s).1.currentModel
      = some (applyEnvToMeshes t meshes).1 := by
    simp [applyEnvironmentTexture, hp, hm]
  refine ⟨by simp [applyEnvironmentTexture, hp, hm],
          by simp [applyEnvironmentTexture, hp, hm],
          by simp [applyEnvironmentTexture, hp, hm], ?_, ?_, ?_, ?_, ?_,
          fun s' => rfl⟩
  · rw [hst]
    exact applyEnvToMeshes_envMap t meshes
  · rw [htr]
    exact List.Sublist.cons₂ _ (List.Sublist.cons _
      (List.singleton_sublist.mpr (List.mem_cons_self _ _)))
  · rw [htr]
    exact List.Sublist.cons _ (List.Sublist.cons₂ _
      (List.singleton_sublist.mpr (List.mem_cons_self _ _)))
  · intro m hm' hsome
    rw [htr]
    exact List.Sublist.cons _ (List.Sublist.cons _ (List.Sublist.cons₂ _
      (List.singleton_sublist.mpr
        (applyEnvToMeshes_event_mem t meshes m hm' hsome))))
  · rw [htr]
    simp [List.count_cons, applyEnvToMeshes_no_dispose t p meshes]

/-- C2 witness: the amended statement at the concrete counterexample
state. -/
theorem C2_env_replace_amended_witness :
    (applyEnvironmentTexture 9
        ⟨some 7, Background.tex 7, some 7, some [⟨0, some ⟨some 7, 1, false⟩⟩]⟩).1.currentHDRI
      = some 9 ∧
    [EEvent.setEnvironment 9, EEvent.disposeTexture 7].Sublist
      (applyEnvironmentTexture 9
        ⟨some 7, Background.tex 7, some 7, some [⟨0, some ⟨some 7, 1, false⟩⟩]⟩).2 ∧
    ((applyEnvironmentTexture 9
        ⟨some 7, Background.tex 7, some 7, some [⟨0, some ⟨some 7, 1, false⟩⟩]⟩).2).count
      (EEvent.disposeTexture 7) = 1 := by
  obtain ⟨h1, h2, h3, h4, h5, h6, h7, h8, h9⟩ :=
    C2_env_replace_amended 9 7
      ⟨some 7, Background.tex 7, some 7, some [⟨0, some ⟨some 7, 1, false⟩⟩]⟩
      [⟨0, some ⟨some 7, 1, false⟩⟩] rfl rfl
  exact ⟨h3, h5, h8⟩

/-! Helper lemmas for the material override manager. -/

/-- Lookup through an appended association list: the left part wins. -/
theorem lookup_append (u : ℕ) (om ext : List (ℕ × Mat)) :
    (om ++ ext).lookup u = (om.lookup u).or (ext.lookup u) := by
  induction om with
  | nil => rfl
  | cons e rest ih =>
      cases e with
      | mk k v =>
          by_cases hu : u = k
          · simp [List.lookup, hu]
          · simp only [List.cons_append, List.lookup,
              beq_eq_false_iff_ne.mpr hu]
            exact ih

/-- The meshes produced by an enable pass: each mesh gets the next fresh
hologram material and loses its shadow flags, independent of the map. -/
theorem enableMeshes_meshes (meshes : List Mesh) (om : List (ℕ × Mat)) (c : ℕ) :
    (enableMeshes meshes om c).1 = holoize c meshes := by
  induction meshes generalizing om c with
  | nil => rfl
  | cons mesh rest ih => simp [enableMeshes, holoize, ih]

/-- The allocation counter advances once per mesh. -/
theorem enableMeshes_counter (meshes : List Mesh) (om : List (ℕ × Mat)) (c : ℕ) :
    (enableMeshes meshes om c).2.2 = c + meshes.length := by
  induction meshes generalizing om c with
  | nil => rfl
  | cons mesh rest ih =>
      rw [enableMeshes]
      rw [show (enableMeshes rest (if (om.lookup mesh.uuid).isSome then om
          else om ++ [(mesh.uuid, mesh.material)]) (c + 1)).2.2
          = c + 1 + rest.length from ih _ _]
      simp [List.length_cons]
      omega

/-- An enable pass keeps every mesh uuid in place. -/
theorem holoize_map_uuid (c : ℕ) (meshes : List Mesh) :
    (holoize c meshes).map Mesh.uuid = meshes.map Mesh.uuid := by
  induction meshes generalizing c with
  | nil => rfl
  | cons mesh rest ih => simp [holoize, ih]

/-- When every mesh uuid is already a key, an enable pass re-snapshots
nothing: the binding map is returned unchanged. -/
theorem enableMeshes_map_all_present (meshes : List Mesh)
    (om : List (ℕ × Mat)) (c : ℕ)
    (h : ∀ m ∈ meshes, (om.lookup m.uuid).isSome) :
    (enableMeshes meshes om c).2.1 = om := by
  induction meshes generalizing om c with
  | nil => rfl
  | cons mesh rest ih =>
      have h0 : (om.lookup mesh.uuid).isSome := h mesh (List.mem_cons_self _ _)
      simp only [enableMeshes, h0, if_true]
      exact ih om (c + 1) fun m hm => h m (List.mem_cons_of_mem _ hm)

/-- When no mesh uuid is a key yet and uuids are distinct, an enable
pass appends exactly one snapshot entry per mesh, in traversal order. -/
theorem enableMeshes_map_fresh (meshes : List Mesh)
    (om : List (ℕ × Mat)) (c : ℕ)
    (habs : ∀ m ∈ meshes, om.lookup m.uuid = none)
    (hnd : (meshes.map Mesh.uuid).Nodup) :
    (enableMeshes meshes om c).2.1
      = om ++ meshes.map fun m => (m.uuid, m.material) := by
  induction meshes generalizing om c with
  | nil => simp [enableMeshes]
  | cons mesh rest ih =>
      have h0 : om.lookup mesh.uuid = none :=
        habs mesh (List.mem_cons_self _ _)
      have hnd' : (rest.map Mesh.uuid).Nodup := (List.nodup_cons.mp hnd).2
      have hne : ∀ m ∈ rest, m.uuid ≠ mesh.uuid := by
        intro m hm heq
        exact (List.nodup_cons.mp hnd).1 (heq ▸ List.mem_map_of_mem Mesh.uuid hm)
      have habs' : ∀ m ∈ rest,
          (om ++ [(mesh.uuid, mesh.material)]).lookup m.uuid = none := by
        intro m hm
        rw [lookup_append, habs m (List.mem_cons_of_mem _ hm)]
        simp [List.lookup, beq_eq_false_iff_ne.mpr (hne m hm)]
      simp only [enableMeshes, h0, Option.isSome_none, Bool.false_eq_true,
        if_false]
      rw [ih _ (c + 1) habs' hnd']
      simp [List.append_assoc]

/-- Every uuid present among the traversed meshes (or already a key) is
a key of the binding map an enable pass returns. -/
theorem enableMeshes_lookup_isSome (meshes : List Mesh)
    (om : List (ℕ × Mat)) (c : ℕ) (u : ℕ)
    (h : (∃ m ∈ meshes, m.uuid = u) ∨ (om.lookup u).isSome) :
    (((enableMeshes meshes om c).2.1).lookup u).isSome := by
  induction meshes generalizing om c with
  | nil =>
      rcases h with ⟨m, hm, _⟩ | h
      · simp at hm
      · exact h
  | cons mesh rest ih =>
      rw [enableMeshes]
      apply ih
      set om' := if (om.lookup mesh.uuid).isSome then om
                 else om ++ [(mesh.uuid, mesh.material)] with hom'
      rcases h with ⟨m, hm, hu⟩ | hsome
      · rcases List.mem_cons.mp hm with hmh | hmt
        · right
          subst hmh
          subst hu
          by_cases hc : (om.lookup m.uuid).isSome
          · rw [hom', if_pos hc]
            exact hc
          · rw [hom', if_neg hc]
            rw [lookup_append,
              Option.not_isSome_iff_eq_none.mp hc]
            simp [List.lookup]
        · exact Or.inl ⟨m, hmt, hu⟩
      · right
        by_cases hc : (om.lookup mesh.uuid).isSome
        · rw [hom', if_pos hc]
          exact hsome
        · rw [hom', if_neg hc, lookup_append]
          obtain ⟨v, hv⟩ := Option.isSome_iff_exists.mp hsome
          rw [hv]
          rfl

/-- Re-holoizing an already holoized list only renumbers the preview
materials. -/
theorem holoize_holoize (c c' : ℕ) (meshes : List Mesh) :
    holoize c (holoize c' meshes) = holoize c meshes := by
  induction meshes generalizing c c' with
  | nil => rfl
  | cons mesh rest ih => simp [holoize, ih]

/-- All preview materials handed out from counter c are hologram
instances numbered at least c. -/
theorem holoize_material_ge (c : ℕ) (meshes : List Mesh) :
    ∀ x ∈ (holoize c meshes).map Mesh.material, ∃ j, x = Mat.holo j ∧ c ≤ j := by
  induction meshes generalizing c with
  | nil => intro x hx; simp [holoize] at hx
  | cons mesh rest ih =>
      intro x hx
      rw [holoize] at hx
      rcases List.mem_cons.mp hx with h | h
      · exact ⟨c, h, le_refl c⟩
      · obtain ⟨j, hj, hcj⟩ := ih (c + 1) x h
        exact ⟨j, hj, by omega⟩

/-- The preview materials handed out by one enable pass are pairwise
distinct instances. -/
theorem holoize_map_material_nodup (c : ℕ) (meshes : List Mesh) :
    ((holoize c meshes).map Mesh.material).Nodup := by
  induction meshes generalizing c with
  | nil => simp [holoize]
  | cons mesh rest ih =>
      rw [holoize, List.map_cons, List.nodup_cons]
      refine ⟨?_, ih (c + 1)⟩
      intro hmem
      obtain ⟨j, hj, hcj⟩ := holoize_material_ge (c + 1) rest _ hmem
      cases hj
      omega

/-- Lookup of a mesh's uuid in the snapshot map built from a list with
distinct uuids yields exactly that mesh's material. -/
theorem lookup_snapshot (meshes : List Mesh)
    (hnd : (meshes.map Mesh.uuid).Nodup) (m : Mesh) (hm : m ∈ meshes) :
    (meshes.map fun x => (x.uuid, x.material)).lookup m.uuid
      = some m.material := by
  induction meshes with
  | nil => simp at hm
  | cons mesh rest ih =>
      rcases List.mem_cons.mp hm with h | h
      · subst h
        simp [List.lookup]
      · have hne : mesh.uuid ≠ m.uuid := by
          intro heq
          exact (List.nodup_cons.mp hnd).1
            (heq ▸ List.mem_map_of_mem Mesh.uuid h)
        rw [List.map_cons]
        rw [show ((mesh.uuid, mesh.material) ::
            rest.map fun x => (x.uuid, x.material)).lookup m.uuid
            = if (m.uuid == mesh.uuid) = true
              then some mesh.material
              else (rest.map fun x => (x.uuid, x.material)).lookup m.uuid
            from by
          rw [List.lookup]
          cases hbe : m.uuid == mesh.uuid <;> simp [hbe]]
        rw [if_neg (by simp [beq_iff_eq]; exact fun hh => hne hh.symm)]
        exact ih (List.nodup_cons.mp hnd).2 h

/-- Disabling over a holoized mesh list with a map that records each
mesh's original material restores every original, re-enables both
shadow flags, and disposes exactly the preview instances, in order. -/
theorem disableMeshes_holoize (meshes : List Mesh) (c : ℕ)
    (om : List (ℕ × Mat))
    (h : ∀ m ∈ meshes, om.lookup m.uuid = some m.material) :
    disableMeshes om (holoize c meshes)
      = (meshes.map fun m =>
          { m with castShadow := true, receiveShadow := true },
         (holoize c meshes).map Mesh.material) := by
  induction meshes generalizing c with
  | nil => rfl
  | cons mesh rest ih =>
      have h0 : om.lookup mesh.uuid = some mesh.material :=
        h mesh (List.mem_cons_self _ _)
      rw [holoize, disableMeshes]
      rw [ih (c + 1) fun m hm => h m (List.mem_cons_of_mem _ hm)]
      simp [h0]

/-- Every mesh of a holoized list keeps the uuid of a source mesh. -/
theorem holoize_uuid_exists (c : ℕ) (meshes : List Mesh) (m' : Mesh)
    (hm' : m' ∈ holoize c meshes) : ∃ m ∈ meshes, m.uuid = m'.uuid := by
  have hmem : m'.uuid ∈ (holoize c meshes).map Mesh.uuid :=
    List.mem_map_of_mem _ hm'
  rw [holoize_map_uuid] at hmem
  exact List.mem_map.mp hmem

/-- State after one enable call on a model of meshes. -/
theorem toggleHologram_enable (s : HologramState) (meshes : List Mesh)
    (h : s.currentModel = some meshes) :
    (toggleHologram true s).1
      = { s with
          currentModel := some (holoize s.nextMaterialId meshes)
          hologramActive := true
          originalMaterials :=
            (enableMeshes meshes s.originalMaterials s.nextMaterialId).2.1
          nextMaterialId := s.nextMaterialId + meshes.length } := by
  simp [toggleHologram, h, enableMeshes_meshes, enableMeshes_counter]

/-- State after one disable call on a model of meshes. -/
theorem toggleHologram_disable (s : HologramState) (meshes : List Mesh)
    (h : s.currentModel = some meshes) :
    toggleHologram false s
      = ({ s with
           currentModel := some (disableMeshes s.originalMaterials meshes).1
           hologramActive := false },
         (disableMeshes s.originalMaterials meshes).2) := by
  simp [toggleHologram, h]

/-- C5 counterexample: on a one-mesh model, the first enable installs
hologram instance 0 and the second enable installs a different fresh
hologram instance 1, so the mesh's material is replaced a second time
and the double enable is not a no-op, refuting the claim as stated. -/
theorem C5_counterexample :
    ((toggleHologram true
        ⟨some [⟨0, Mat.std 100, true, true⟩], false, [], 0⟩).1).currentModel
      = some [⟨0, Mat.holo 0, false, false⟩] ∧
    ((toggleHologram true (toggleHologram true
        ⟨some [⟨0, Mat.std 100, true, true⟩], false, [], 0⟩).1).1).currentModel
      = some [⟨0, Mat.holo 1, false, false⟩] ∧
    (toggleHologram true (toggleHologram true
        ⟨some [⟨0, Mat.std 100, true, true⟩], false, [], 0⟩).1).1
      ≠ (toggleHologram true
        ⟨some [⟨0, Mat.std 100, true, true⟩], false, [], 0⟩).1 := by
  refine ⟨?_, ?_, ?_⟩ <;> decide

/-- C5 amended: enabling the override when it is already enabled
re-snapshots nothing and leaves the binding map (hence its key set)
entirely unchanged, but it is not a material no-op: every mesh's
material is replaced again by a freshly allocated preview-material
instance (the previous preview instance is dropped without disposal), so
on a non-empty model the state after the second enable differs from the
state after the first. -/
theorem C5_double_enable_amended (s : HologramState) (meshes : List Mesh)
    (h : s.currentModel = some meshes) :
    ((toggleHologram true (toggleHologram true s).1).1).originalMaterials
      = ((toggleHologram true s).1).originalMaterials ∧
    ((toggleHologram true s).1).currentModel
      = some (holoize s.nextMaterialId meshes) ∧
    ((toggleHologram true (toggleHologram true s).1).1).currentModel
      = some (holoize (s.nextMaterialId + meshes.length) meshes) ∧
    (meshes ≠ [] →
      ((toggleHologram true (toggleHologram true s).1).1).currentModel
        ≠ ((toggleHologram true s).1).currentModel) := by
  have hs1 := toggleHologram_enable s meshes h
  have hs1m : ((toggleHologram true s).1).currentModel
      = some (holoize s.nextMaterialId meshes) := by rw [hs1]
  have hs2 := toggleHologram_enable (toggleHologram true s).1
    (holoize s.nextMaterialId meshes) hs1m
  have hpresent : ∀ m' ∈ holoize s.nextMaterialId meshes,
      ((((toggleHologram true s).1).originalMaterials).lookup m'.uuid).isSome := by
    intro m' hm'
    rw [hs1]
    exact enableMeshes_lookup_isSome meshes s.originalMaterials
      s.nextMaterialId m'.uuid
      (Or.inl (holoize_uuid_exists s.nextMaterialId meshes m' hm'))
  refine ⟨?_, hs1m, ?_, ?_⟩
  · rw [hs2]
    exact enableMeshes_map_all_present _ _ _ hpresent
  · rw [hs2]
    simp only [hs1]
    rw [holoize_holoize]
  · intro hne
    rw [hs2, hs1m]
    simp only [hs1]
    rw [holoize_holoize]
    cases meshes with
    | nil => exact absurd rfl hne
    | cons mesh rest =>
        intro heq
        have hl := Option.some.inj heq
        rw [holoize, holoize] at hl
        have hh := (List.cons.inj hl).1
        have hnat := Mat.holo.inj (congrArg Mesh.material hh)
        rw [List.length_cons] at hnat
        omega

/-- C5 witness: the amended statement on a concrete two-mesh model. -/
theorem C5_double_enable_amended_witness :
    ((toggleHologram true (toggleHologram true
        ⟨some [⟨0, Mat.std 100, true, true⟩, ⟨1, Mat.std 101, true, true⟩],
         false, [], 0⟩).1).1).originalMaterials
      = ((toggleHologram true
        ⟨some [⟨0, Mat.std 100, true, true⟩, ⟨1, Mat.std 101, true, true⟩],
         false, [], 0⟩).1).originalMaterials ∧
    ((toggleHologram true (toggleHologram true
        ⟨some [⟨0, Mat.std 100, true, true⟩, ⟨1, Mat.std 101, true, true⟩],
         false, [], 0⟩).1).1).currentModel
      ≠ ((toggleHologram true
        ⟨some [⟨0, Mat.std 100, true, true⟩, ⟨1, Mat.std 101, true, true⟩],
         false, [], 0⟩).1).currentModel := by
  obtain ⟨h1, h2, h3, h4⟩ := C5_double_enable_amended
    ⟨some [⟨0, Mat.std 100, true, true⟩, ⟨1, Mat.std 101, true, true⟩],
     false, [], 0⟩
    [⟨0, Mat.std 100, true, true⟩, ⟨1, Mat.std 101, true, true⟩] rfl
  exact ⟨h1, h4 (by decide)⟩

/-- C6 counterexample: enable then disable on a one-mesh model leaves
the binding map holding the entry recorded at enable time; disable never
clears the map (only a model replacement does), refuting the claim that
after any disable the map has no entries. -/
theorem C6_counterexample :
    ((toggleHologram false (toggleHologram true
        ⟨some [⟨0, Mat.std 100, true, true⟩], false, [], 0⟩).1).1).originalMaterials
      = [(0, Mat.std 100)] ∧
    ((toggleHologram false (toggleHologram true
        ⟨some [⟨0, Mat.std 100, true, true⟩], false, [], 0⟩).1).1).originalMaterials
      ≠ [] := by
  refine ⟨?_, ?_⟩ <;> decide

/-- C6 amended: after enable, disable restores every recorded original
material reference, disposes each preview material instance exactly
once, re-enables shadow casting and receiving, and clears the
override-active flag, but it leaves the binding map holding exactly the
entries recorded at enable time (one per mesh, keyed by uuid); the map
is emptied only by the hologram reset a model replacement performs. -/
theorem C6_disable_amended (s : HologramState) (meshes : List Mesh)
    (h : s.currentModel = some meshes)
    (hom : s.originalMaterials = [])
    (hnd : (meshes.map Mesh.uuid).Nodup) :
    ((toggleHologram false (toggleHologram true s).1).1).currentModel
      = some (meshes.map fun m =>
          { m with castShadow := true, receiveShadow := true }) ∧
    ((toggleHologram false (toggleHologram true s).1).1).hologramActive
      = false ∧
    (toggleHologram false (toggleHologram true s).1).2
      = (holoize s.nextMaterialId meshes).map Mesh.material ∧
    ((toggleHologram false (toggleHologram true s).1).2).Nodup ∧
    ((toggleHologram false (toggleHologram true s).1).1).originalMaterials
      = (meshes.map fun m => (m.uuid, m.material)) ∧
    (meshes ≠ [] →
      ((toggleHologram false (toggleHologram true s).1).1).originalMaterials
        ≠ []) ∧
    (∀ s' : HologramState,
      (resetHologramOnLoad s').originalMaterials = [] ∧
      (resetHologramOnLoad s').hologramActive = false) := by
  have hs1 := toggleHologram_enable s meshes h
  have hom1 : ((toggleHologram true s).1).originalMaterials
      = (meshes.map fun m => (m.uuid, m.material)) := by
    rw [hs1]
    simp only
    rw [hom, enableMeshes_map_fresh meshes [] s.nextMaterialId
      (fun m _ => rfl) hnd]
    rfl
  have hs1m : ((toggleHologram true s).1).currentModel
      = some (holoize s.nextMaterialId meshes) := by rw [hs1]
  have hdis : disableMeshes ((toggleHologram true s).1).originalMaterials
      (holoize s.nextMaterialId meshes)
      = (meshes.map fun m =>
          { m with castShadow := true, receiveShadow := true },
         (holoize s.nextMaterialId meshes).map Mesh.material) := by
    rw [hom1]
    exact disableMeshes_holoize meshes s.nextMaterialId _
      fun m hm => lookup_snapshot meshes hnd m hm
  have hs3 : toggleHologram false (toggleHologram true s).1
      = ({ (toggleHologram true s).1 with
           currentModel := some (meshes.map fun m =>
             { m with castShadow := true, receiveShadow := true })
           hologramActive := false },
         (holoize s.nextMaterialId meshes).map Mesh.material) := by
    rw [toggleHologram_disable (toggleHologram true s).1
      (holoize s.nextMaterialId meshes) hs1m, hdis]
  refine ⟨?_, ?_, ?_, ?_, ?_, ?_, fun s' => ⟨rfl, rfl⟩⟩
  · rw [hs3]
  · rw [hs3]
  · rw [hs3]
  · rw [hs3]
    exact holoize_map_material_nodup s.nextMaterialId meshes
  · rw [hs3]
    exact hom1
  · intro hne
    rw [hs3]
    simp only [hom1]
    intro hcontr
    exact hne (List.map_eq_nil_iff.mp hcontr)

/-- C6 witness: the amended statement on a concrete one-mesh model. -/
theorem C6_disable_amended_witness :
    ((toggleHologram false (toggleHologram true
        ⟨some [⟨0, Mat.std 100, true, true⟩], false, [], 0⟩).1).1).currentModel
      = some [⟨0, Mat.std 100, true, true⟩] ∧
    (toggleHologram false (toggleHologram true
        ⟨some [⟨0, Mat.std 100, true, true⟩], false, [], 0⟩).1).2
      = [Mat.holo 0] ∧
    ((toggleHologram false (toggleHologram true
        ⟨some [⟨0, Mat.std 100, true, true⟩], false, [], 0⟩).1).1).originalMaterials
      = [(0, Mat.std 100)] := by
  obtain ⟨h1, h2, h3, h4, h5, h6, h7⟩ := C6_disable_amended
    ⟨some [⟨0, Mat.std 100, true, true⟩], false, [], 0⟩
    [⟨0, Mat.std 100, true, true⟩] rfl rfl (by decide)
  exact ⟨h1, h3, h5⟩

/-- All disposable GPU resources owned by a list of subtrees, grouped by
kind. -/
def resourcesChildren (cs : SceneChildren) : List RHandle :=
  (childrenGeoms cs).map RHandle.geom ++
    (childrenMats cs).map (fun m => RHandle.mat m.matId) ++
    ((childrenMats cs).map GMaterial.textures).flatten.map RHandle.tex

/-- Dispose calls of a material array account for exactly the array's
materials and their textures. -/
theorem disposeMats_count (ms : List GMaterial) (r : RHandle) :
    ((ms.map disposeMaterial).flatten).count r
      = (ms.map (fun m => RHandle.mat m.matId)).count r
        + ((ms.map GMaterial.textures).flatten.map RHandle.tex).count r := by
  induction ms with
  | nil => rfl
  | cons m rest ih =>
      rw [List.map_cons, List.flatten_cons, List.count_append, ih,
        disposeMaterial, List.count_append]
      rw [List.map_cons,
        show (RHandle.mat m.matId ::
            rest.map fun m => RHandle.mat m.matId)
          = [RHandle.mat m.matId] ++ rest.map fun m => RHandle.mat m.matId
          from rfl,
        List.count_append]
      rw [List.map_cons, List.flatten_cons, List.map_append,
        List.count_append]
      omega

/-- Dispose calls of a material slot account for exactly the slot's
materials and their textures. -/
theorem disposeSlot_count (mats : MatSlot) (r : RHandle) :
    (disposeSlot mats).count r
      = ((slotMats mats).map (fun m => RHandle.mat m.matId)).count r
        + (((slotMats mats).map GMaterial.textures).flatten.map
            RHandle.tex).count r := by
  cases mats with
  | vacant => rfl
  | one m =>
      rw [show disposeSlot (MatSlot.one m) = disposeMaterial m from rfl,
        disposeMaterial, List.count_append]
      rw [show slotMats (MatSlot.one m) = [m] from rfl]
      rw [show ([m].map fun m => RHandle.mat m.matId)
          = [RHandle.mat m.matId] from rfl]
      rw [show ([m].map GMaterial.textures).flatten = m.textures from by
        simp]
      omega
  | many ms => exact disposeMats_count ms r

mutual
/-- Dispose calls of a subtree account for exactly the subtree's
resources, with multiplicity. -/
theorem disposeObject_count (o : SceneNode) (r : RHandle) :
    (disposeObject o).count r = (resources o).count r := by
  cases o with
  | mk g mats children =>
      have hc := disposeChildren_count children r
      rw [resourcesChildren] at hc
      rw [show disposeObject (SceneNode.mk g mats children)
          = (match g with | some n => [RHandle.geom n] | none => []) ++
              disposeSlot mats ++ disposeChildren children from rfl]
      rw [resources,
        show nodeGeoms (SceneNode.mk g mats children)
          = (match g with | some n => [n] | none => []) ++
              childrenGeoms children from rfl,
        show nodeMats (SceneNode.mk g mats children)
          = slotMats mats ++ childrenMats children from rfl]
      rw [List.count_append, List.count_append, disposeSlot_count, hc]
      simp only [List.map_append, List.flatten_append, List.count_append]
      cases g with
      | none => simp only [List.map_nil, List.count_nil]; omega
      | some n =>
          simp only [List.map_cons, List.map_nil]
          omega
/-- Dispose calls of a list of subtrees account for exactly their
resources, with multiplicity. -/
theorem disposeChildren_count (cs : SceneChildren) (r : RHandle) :
    (disposeChildren cs).count r = (resourcesChildren cs).count r := by
  cases cs with
  | nil => rfl
  | cons h t =>
      have h1 := disposeObject_count h r
      have h2 := disposeChildren_count t r
      rw [resources] at h1
      rw [resourcesChildren] at h2
      rw [show disposeChildren (SceneChildren.cons h t)
          = disposeObject h ++ disposeChildren t from rfl]
      rw [resourcesChildren,
        show childrenGeoms (SceneChildren.cons h t)
          = nodeGeoms h ++ childrenGeoms t from rfl,
        show childrenMats (SceneChildren.cons h t)
          = nodeMats h ++ childrenMats t from rfl]
      rw [List.count_append, h1, h2]
      simp only [List.map_append, List.flatten_append, List.count_append]
      omega
end

/-- C8: over every scene subtree in which each resource handle occurs at
one place (the exclusive-ownership well-formedness of the data model),
the disposer releases each geometry, each material (single or listed),
and each texture referenced by those materials exactly once, releases
nothing else, and a node with no geometry and no material contributes
nothing of its own, its children still being traversed (missing fields
are skipped, not errors). -/
theorem C8_dispose_exactly_once (o : SceneNode)
    (h : (resources o).Nodup) :
    (∀ r ∈ resources o, (disposeObject o).count r = 1) ∧
    (∀ r, r ∉ resources o → (disposeObject o).count r = 0) ∧
    (∀ cs : SceneChildren,
      disposeObject (SceneNode.mk none MatSlot.vacant cs)
        = disposeChildren cs) := by
  refine ⟨?_, ?_, fun cs => rfl⟩
  · intro r hr
    rw [disposeObject_count]
    exact List.count_eq_one_of_mem h hr
  · intro r hr
    rw [disposeObject_count]
    exact List.count_eq_zero.mpr hr

/-- C8 witness: a mesh with geometry 1 and a two-texture material, with
one child that has no geometry and an array of two materials. -/
theorem C8_dispose_exactly_once_witness :
    (resources (SceneNode.mk (some 1) (MatSlot.one ⟨2, [3, 4]⟩)
        (SceneChildren.cons
          (SceneNode.mk none (MatSlot.many [⟨5, [6]⟩, ⟨7, []⟩])
            SceneChildren.nil)
          SceneChildren.nil))).Nodup ∧
    (disposeObject (SceneNode.mk (some 1) (MatSlot.one ⟨2, [3, 4]⟩)
        (SceneChildren.cons
          (SceneNode.mk none (MatSlot.many [⟨5, [6]⟩, ⟨7, []⟩])
            SceneChildren.nil)
          SceneChildren.nil))).count (RHandle.tex 6) = 1 ∧
    (disposeObject (SceneNode.mk (some 1) (MatSlot.one ⟨2, [3, 4]⟩)
        (SceneChildren.cons
          (SceneNode.mk none (MatSlot.many [⟨5, [6]⟩, ⟨7, []⟩])
            SceneChildren.nil)
          SceneChildren.nil))).count (RHandle.geom 9) = 0 := by
  have hnd : (resources (SceneNode.mk (some 1) (MatSlot.one ⟨2, [3, 4]⟩)
      (SceneChildren.cons
        (SceneNode.mk none (MatSlot.many [⟨5, [6]⟩, ⟨7, []⟩])
          SceneChildren.nil)
        SceneChildren.nil))).Nodup := by decide
  obtain ⟨h1, h2, h3⟩ := C8_dispose_exactly_once _ hnd
  exact ⟨hnd, h1 (RHandle.tex 6) (by decide), h2 (RHandle.geom 9) (by decide)⟩

/-! Helper lemmas for the framing scenario: the camera fov is 45
degrees, so Math.tan(fov / 2) is tan(pi/8) = sqrt 2 - 1. -/

/-- Half of 45 degrees in radians is pi/8. -/
theorem fov45_half : (45 : ℝ) * Real.pi / 180 / 2 = Real.pi / 8 := by ring

/-- Closed form of tan(pi/8). -/
theorem tan_pi_div_eight_eq : Real.tan (Real.pi / 8) = Real.sqrt 2 - 1 := by
  have ha2 : Real.sqrt 2 ^ 2 = 2 := Real.sq_sqrt (by norm_num)
  have ha0 : (0 : ℝ) ≤ Real.sqrt 2 := Real.sqrt_nonneg 2
  have ha1 : (1 : ℝ) ≤ Real.sqrt 2 := by nlinarith
  have hb : Real.sqrt 2 ≤ 3 / 2 := by nlinarith
  have h2b : (0 : ℝ) < 2 + Real.sqrt 2 := by nlinarith
  have hne : Real.sqrt (2 + Real.sqrt 2) ≠ 0 :=
    ne_of_gt (Real.sqrt_pos.mpr h2b)
  have hsq : ((Real.sqrt 2 - 1) * Real.sqrt (2 + Real.sqrt 2)) ^ 2
      = 2 - Real.sqrt 2 := by
    rw [mul_pow, Real.sq_sqrt h2b.le]
    nlinarith
  have key : Real.sqrt (2 - Real.sqrt 2)
      = (Real.sqrt 2 - 1) * Real.sqrt (2 + Real.sqrt 2) := by
    rw [← hsq, Real.sqrt_sq (mul_nonneg (by nlinarith) (Real.sqrt_nonneg _))]
  rw [Real.tan_eq_sin_div_cos, Real.sin_pi_div_eight, Real.cos_pi_div_eight,
    key]
  field_simp

/-- Five-decimal bounds on sqrt 2 - 1. -/
theorem sqrt2_sub_one_bounds :
    (41421 / 100000 : ℝ) ≤ Real.sqrt 2 - 1 ∧
      Real.sqrt 2 - 1 ≤ 41422 / 100000 := by
  have ha2 : Real.sqrt 2 ^ 2 = 2 := Real.sq_sqrt (by norm_num)
  have ha0 : (0 : ℝ) ≤ Real.sqrt 2 := Real.sqrt_nonneg 2
  constructor <;>
    nlinarith [sq_nonneg (Real.sqrt 2 - 141421 / 100000),
      sq_nonneg (Real.sqrt 2 - 141422 / 100000)]

/-- The six-decimal rational 0.414214 approximates Math.tan(fov/2) for
the 45-degree camera within 1/100000. -/
theorem tan_approx :
    |((414214 / 1000000 : ℚ) : ℝ) - Real.tan (45 * Real.pi / 180 / 2)|
      ≤ 1 / 100000 := by
  rw [fov45_half, tan_pi_div_eight_eq]
  obtain ⟨hl, hu⟩ := sqrt2_sub_one_bounds
  rw [abs_le]
  push_cast
  constructor <;> linarith

/-- C7: the framer computes distance = (maxDim / (2 tan(fov/2))) * 1.2,
camera position = center + distance * (0.4, 0.25, 0.9), and target =
center, for every box with componentwise min <= max and positive
tangent; and on the AABB [(-1,-1,-1),(3,5,2)] with fov 45 degrees the
distance is within 0.01 of 8.70 and the camera position within 0.01 per
component of (1+3.48, 2+2.175, 0.5+7.83), the target being the center
(1, 2, 0.5). -/
theorem C7_framer :
    (∀ (bmin bmax : V3) (t : ℚ), 0 < t →
      bmin.x ≤ bmax.x → bmin.y ≤ bmax.y → bmin.z ≤ bmax.z →
      (frameModel bmin bmax t).cameraZ
        = maxDimOf (boxSize bmin bmax) / (2 * t) * (6 / 5) ∧
      (frameModel bmin bmax t).cameraPos
        = V3.add (boxCenter bmin bmax)
            (V3.smul (frameModel bmin bmax t).cameraZ ⟨2/5, 1/4, 9/10⟩) ∧
      (frameModel bmin bmax t).target = boxCenter bmin bmax) ∧
    (∀ t : ℚ,
      |((t : ℝ)) - Real.tan (45 * Real.pi / 180 / 2)| ≤ 1 / 100000 →
      |((frameModel ⟨-1, -1, -1⟩ ⟨3, 5, 2⟩ t).cameraZ : ℝ) - 87 / 10|
        ≤ 1 / 100 ∧
      |((frameModel ⟨-1, -1, -1⟩ ⟨3, 5, 2⟩ t).cameraPos.x : ℝ)
        - (1 + 348 / 100)| ≤ 1 / 100 ∧
      |((frameModel ⟨-1, -1, -1⟩ ⟨3, 5, 2⟩ t).cameraPos.y : ℝ)
        - (2 + 2175 / 1000)| ≤ 1 / 100 ∧
      |((frameModel ⟨-1, -1, -1⟩ ⟨3, 5, 2⟩ t).cameraPos.z : ℝ)
        - (1 / 2 + 783 / 100)| ≤ 1 / 100 ∧
      (frameModel ⟨-1, -1, -1⟩ ⟨3, 5, 2⟩ t).target = ⟨1, 2, 1 / 2⟩) := by
  constructor
  · intro bmin bmax t ht hx hy hz
    refine ⟨?_, rfl, rfl⟩
    have hsx : (0 : ℚ) ≤ (boxSize bmin bmax).x := by
      show (0 : ℚ) ≤ bmax.x - bmin.x
      linarith
    have hmd0 : 0 ≤ maxDimOf (boxSize bmin bmax) :=
      le_trans hsx (le_trans (le_max_left _ _) (le_max_left _ _))
    show |maxDimOf (boxSize bmin bmax) / (2 * t)| * (6 / 5)
        = maxDimOf (boxSize bmin bmax) / (2 * t) * (6 / 5)
    rw [abs_of_nonneg (div_nonneg hmd0 (by positivity))]
  · intro t ht
    rw [fov45_half, tan_pi_div_eight_eq] at ht
    obtain ⟨hsl, hsu⟩ := sqrt2_sub_one_bounds
    rw [abs_le] at ht
    have hu1 : (41420 / 100000 : ℝ) ≤ (t : ℝ) := by linarith [ht.1]
    have hu2 : ((t : ℝ)) ≤ 41423 / 100000 := by linarith [ht.2]
    have ht0R : (0 : ℝ) < (t : ℝ) := by linarith
    have ht0 : (0 : ℚ) < t := by exact_mod_cast ht0R
    have htne : t ≠ 0 := ne_of_gt ht0
    have hmax : maxDimOf (boxSize ⟨-1, -1, -1⟩ ⟨3, 5, 2⟩) = 6 := by
      norm_num [maxDimOf, boxSize, max_def]
    have hz6 : (frameModel ⟨-1, -1, -1⟩ ⟨3, 5, 2⟩ t).cameraZ
        = 18 / (5 * t) := by
      show |maxDimOf (boxSize ⟨-1, -1, -1⟩ ⟨3, 5, 2⟩) / (2 * t)| * (6 / 5)
          = 18 / (5 * t)
      rw [hmax, abs_of_nonneg (by positivity)]
      field_simp
      ring
    have hcast : ((18 / (5 * t) : ℚ) : ℝ) = 18 / (5 * (t : ℝ)) := by
      push_cast
      ring
    have h5u : (0 : ℝ) < 5 * (t : ℝ) := by linarith
    have hD1 : (869 / 100 : ℝ) ≤ 18 / (5 * (t : ℝ)) := by
      rw [le_div_iff₀ h5u]
      linarith
    have hD2 : 18 / (5 * (t : ℝ)) ≤ 8692 / 1000 := by
      rw [div_le_iff₀ h5u]
      linarith
    have hpx : (frameModel ⟨-1, -1, -1⟩ ⟨3, 5, 2⟩ t).cameraPos.x
        = 1 + 18 / (5 * t) * (2 / 5) := by
      rw [show (frameModel ⟨-1, -1, -1⟩ ⟨3, 5, 2⟩ t).cameraPos.x
          = (boxCenter ⟨-1, -1, -1⟩ ⟨3, 5, 2⟩).x
            + (frameModel ⟨-1, -1, -1⟩ ⟨3, 5, 2⟩ t).cameraZ * (2 / 5)
          from rfl, hz6]
      norm_num [boxCenter]
    have hpy : (frameModel ⟨-1, -1, -1⟩ ⟨3, 5, 2⟩ t).cameraPos.y
        = 2 + 18 / (5 * t) * (1 / 4) := by
      rw [show (frameModel ⟨-1, -1, -1⟩ ⟨3, 5, 2⟩ t).cameraPos.y
          = (boxCenter ⟨-1, -1, -1⟩ ⟨3, 5, 2⟩).y
            + (frameModel ⟨-1, -1, -1⟩ ⟨3, 5, 2⟩ t).cameraZ * (1 / 4)
          from rfl, hz6]
      norm_num [boxCenter]
    have hpz : (frameModel ⟨-1, -1, -1⟩ ⟨3, 5, 2⟩ t).cameraPos.z
        = 1 / 2 + 18 / (5 * t) * (9 / 10) := by
      rw [show (frameModel ⟨-1, -1, -1⟩ ⟨3, 5, 2⟩ t).cameraPos.z
          = (boxCenter ⟨-1, -1, -1⟩ ⟨3, 5, 2⟩).z
            + (frameModel ⟨-1, -1, -1⟩ ⟨3, 5, 2⟩ t).cameraZ * (9 / 10)
          from rfl, hz6]
      norm_num [boxCenter]
    refine ⟨?_, ?_, ?_, ?_, ?_⟩
    · rw [hz6, hcast, abs_le]
      constructor <;> linarith
    · rw [hpx]
      rw [show ((1 + 18 / (5 * t) * (2 / 5) : ℚ) : ℝ)
          = 1 + 18 / (5 * (t : ℝ)) * (2 / 5) from by push_cast; ring]
      rw [abs_le]
      constructor <;> linarith
    · rw [hpy]
      rw [show ((2 + 18 / (5 * t) * (1 / 4) : ℚ) : ℝ)
          = 2 + 18 / (5 * (t : ℝ)) * (1 / 4) from by push_cast; ring]
      rw [abs_le]
      constructor <;> linarith
    · rw [hpz]
      rw [show ((1 / 2 + 18 / (5 * t) * (9 / 10) : ℚ) : ℝ)
          = 1 / 2 + 18 / (5 * (t : ℝ)) * (9 / 10) from by push_cast; ring]
      rw [abs_le]
      constructor <;> linarith
    · show boxCenter ⟨-1, -1, -1⟩ ⟨3, 5, 2⟩ = ⟨1, 2, 1 / 2⟩
      norm_num [boxCenter]

/-- C7 witness: the scenario at the six-decimal tangent approximation,
which also instantiates the general formula part. -/
theorem C7_framer_witness :
    (frameModel ⟨-1, -1, -1⟩ ⟨3, 5, 2⟩ (414214 / 1000000)).cameraZ
      = maxDimOf (boxSize ⟨-1, -1, -1⟩ ⟨3, 5, 2⟩)
          / (2 * (414214 / 1000000)) * (6 / 5) ∧
    (frameModel ⟨-1, -1, -1⟩ ⟨3, 5, 2⟩ (414214 / 1000000)).target
      = boxCenter ⟨-1, -1, -1⟩ ⟨3, 5, 2⟩ ∧
    |((frameModel ⟨-1, -1, -1⟩ ⟨3, 5, 2⟩ (414214 / 1000000)).cameraZ : ℝ)
      - 87 / 10| ≤ 1 / 100 ∧
    (frameModel ⟨-1, -1, -1⟩ ⟨3, 5, 2⟩ (414214 / 1000000)).target
      = ⟨1, 2, 1 / 2⟩ := by
  obtain ⟨hA1, hA2, hA3⟩ := C7_framer.1 ⟨-1, -1, -1⟩ ⟨3, 5, 2⟩
    (414214 / 1000000) (by norm_num) (by norm_num) (by norm_num)
    (by norm_num)
  obtain ⟨hB1, hB2, hB3, hB4, hB5⟩ := C7_framer.2 (414214 / 1000000)
    tan_approx
  exact ⟨hA1, hA3, hB1, hB5⟩

end Gabo3Dview
